import Mathlib

/-!
Verification of the Workday Cost Allocation script (`src/main.py`).

The script is a linear batch transform over one spreadsheet: read a header
block, derive an output file name from the Effective Date, read a data table,
derive nine output columns per row, filter rows with no identifying
information, stable-sort by (Cost Center, Last Name), and write the result.

Shallow embedding conventions:
* A spreadsheet cell is an `Option String`: `none` models a pandas `NaN`
  (missing value, `pd.isna` true), `some s` models the cell text `str(cell)`.
* Python strings are modelled as `List Char`; Python string helpers
  (`str.strip`, `str.split()`, `str.split(",")`) are re-implemented below.
* Python floats are modelled as exact rationals `ℚ` (the numeric strings the
  script parses are short decimals, for which field arithmetic is the intent).
* Code that can raise returns `Except PyErr _`; `.error` models an uncaught
  Python exception.
* `pandas.to_datetime` is an external library routine and is modelled (see
  `pd_to_datetime`).
-/

/-- Python exception kinds that the embedded code can raise. -/
inductive PyErr where
  | valueError
  | indexError
deriving DecidableEq, Repr

/-- Whitespace as used by Python `str.strip()` / `str.split()` (ASCII model). -/
def pyWs (c : Char) : Bool := c.isWhitespace

/-- Python `str.strip()`: drop trailing whitespace (via reverse), then leading. -/
def pyStrip (l : List Char) : List Char :=
  ((l.reverse.dropWhile pyWs).reverse).dropWhile pyWs

/-- Cell to Python text: `"" if pd.isna(cell) else str(cell).strip()`. -/
def cellText (cell : Option String) : List Char :=
  match cell with
  | none => []
  | some s => pyStrip s.data

/-- Accumulator-based worker for `pySplitWs`. -/
def pySplitWsAux : List Char → List Char → List (List Char)
  | [], acc => if acc = [] then [] else [acc.reverse]
  | c :: cs, acc =>
    if pyWs c then
      if acc = [] then pySplitWsAux cs [] else acc.reverse :: pySplitWsAux cs []
    else
      pySplitWsAux cs (c :: acc)

/-- Python `str.split()` with no argument: split on whitespace runs,
discarding empty tokens. -/
def pySplitWs (l : List Char) : List (List Char) := pySplitWsAux l []

/-- Accumulator-based worker for `pySplitComma`. -/
def pySplitCommaAux : List Char → List Char → List (List Char)
  | [], acc => [acc.reverse]
  | c :: cs, acc =>
    if c = ',' then acc.reverse :: pySplitCommaAux cs []
    else pySplitCommaAux cs (c :: acc)

/-- Python `s.split(",")`: split on every comma, keeping empty segments. -/
def pySplitComma (l : List Char) : List (List Char) := pySplitCommaAux l []

/-- Decimal digits of a string, most significant first (`digitsToNat "50" = 50`). -/
def digitsToNat (l : List Char) : Nat :=
  l.foldl (fun n c => n * 10 + (c.toNat - 48)) 0

/-! ### Cost Center extraction (`_extract_cc_number`, main.py lines 92-99)

Models `re.search(r"\bCC\d+\b", s, flags=re.IGNORECASE)`.  A word character
for `\b` is an (ASCII) alphanumeric or underscore.  The pattern starts and
ends with word characters, so `\b` holds exactly when the neighbouring
character is absent or a non-word character.  At a candidate position the
engine matches `CC`, then a greedy digit run; shrinking the run cannot
restore the trailing `\b` (the following character would be a digit), so no
backtracking is needed and the maximal digit run is the only candidate. -/

/-- Word character for the regex `\b` boundary (ASCII model of `\w`). -/
def isWordChar (c : Char) : Bool := c.isAlphanum || c = '_'

/-- Case-insensitive match of the literal `C`. -/
def isCcChar (c : Char) : Bool := c = 'C' || c = 'c'

/-- Attempt to match `CC\d+\b` at the head of `l` (the leading `\b` is
checked by the caller).  Returns the matched characters. -/
def ccMatchAt (l : List Char) : Option (List Char) :=
  match l with
  | c1 :: c2 :: rest =>
    if isCcChar c1 && isCcChar c2 then
      let ds := rest.takeWhile Char.isDigit
      if ds = [] then none
      else
        match rest.dropWhile Char.isDigit with
        | [] => some (c1 :: c2 :: ds)
        | c :: _ => if isWordChar c then none else some (c1 :: c2 :: ds)
    else none
  | _ => none

/-- Scan of `re.search`: try each position left to right; `prevW` records
whether the previous character was a word character (`false` at the start). -/
def ccSearch : Bool → List Char → Option (List Char)
  | _, [] => none
  | prevW, c :: cs =>
    match if prevW then none else ccMatchAt (c :: cs) with
    | some m => some m
    | none => ccSearch (isWordChar c) cs

/-- `_extract_cc_number` (main.py lines 92-99): extract the short Cost Center
code (e.g. `CC0075`) from a longer Workday cost center string; empty string
when there is no match.  The match is upper-cased. -/
def _extract_cc_number (cell : Option String) : List Char :=
  match ccSearch false (cellText cell) with
  | some m => m.map Char.toUpper
  | none => []

/-- The text matched by `\bCC\d+\b`: literal `CC` (case-insensitive) followed
by at least one decimal digit. -/
def IsCcToken (m : List Char) : Prop :=
  ∃ c1 c2 ds, m = c1 :: c2 :: ds ∧ isCcChar c1 = true ∧ isCcChar c2 = true ∧
    ds ≠ [] ∧ ∀ c ∈ ds, c.isDigit = true

/-! ### Worker name split (`_split_worker_name`, main.py lines 102-123) -/

/-- The trimmed non-empty comma-separated parts of `s`
(`[p.strip() for p in s.split(",") if p.strip()]`). -/
def commaParts (s : List Char) : List (List Char) :=
  ((pySplitComma s).map pyStrip).filter (fun p => p ≠ [])

/-- `_split_worker_name` (main.py lines 102-123): split the Worker cell into
`(first_name, last_name)`.  List indexing that Python leaves unguarded
(`parts[1].split()[0]`, `tokens[0]`, `tokens[-1]`) is modelled by explicit
case analysis whose missing case is `.error .indexError`. -/
def _split_worker_name (cell : Option String) : Except PyErr (List Char × List Char) :=
  let s := cellText cell
  if s = [] then .ok ([], [])
  else if s.contains ',' then
    let parts := commaParts s
    let last := if parts.length ≥ 1 then parts.headD [] else []
    if parts.length ≥ 2 then
      match pySplitWs (parts.getD 1 []) with
      | [] => .error .indexError
      | tok :: _ => .ok (tok, last)
    else .ok ([], last)
  else
    match pySplitWs s with
    | [] => .error .indexError
    | [t] => .ok (t, [])
    | t :: ts => .ok (t, ts.getLastD t)

/-- The §4.3 worker-name rule transcribed from the specification's words:
with a comma, part 0 of the trimmed non-empty comma parts is the last name
and the first whitespace token of part 1 (when present) is the first name;
without a comma, zero whitespace tokens give both names empty, one token is
the first name, two or more give (first token, last token); an empty or
missing cell gives both names empty. -/
def specWorkerSplit (cell : Option String) : List Char × List Char :=
  let s := cellText cell
  if s.contains ',' then
    let parts := commaParts s
    match parts with
    | [] => ([], [])
    | [p1] => ([], p1)
    | p1 :: p2 :: _ => ((pySplitWs p2).headD [], p1)
  else
    match pySplitWs s with
    | [] => ([], [])
    | [t] => (t, [])
    | t :: ts => (t, ts.getLastD t)

/-! ### Numeric parsing (`_parse_fte`, main.py lines 126-140, and
`pd.to_numeric` for Distribution Percent, lines 222-223) -/

/-- Value of an integer-and-fraction decimal split, as an exact rational. -/
def ratOfParts (ip fr : List Char) : ℚ :=
  (digitsToNat ip : ℚ) + (digitsToNat fr : ℚ) / (10 : ℚ) ^ fr.length

/-- Python `float(s)` for a sign-free string drawn from `[0-9.\-]`:
digits with at most one dot and at least one digit; `none` models
`ValueError`. -/
def parseUnsignedFloat (l : List Char) : Option ℚ :=
  let ip := l.takeWhile Char.isDigit
  match l.dropWhile Char.isDigit with
  | [] => if ip = [] then none else some ((digitsToNat ip : ℕ) : ℚ)
  | '.' :: fr =>
    if (decide (ip ≠ []) || decide (fr ≠ [])) && fr.all Char.isDigit then
      some (ratOfParts ip fr)
    else none
  | _ => none

/-- Python `float(s)` for a string drawn from `[0-9.\-]` (what survives the
sanitisation in `_parse_fte`): an optional leading minus sign, then an
unsigned decimal. -/
def parsePyFloat (l : List Char) : Option ℚ :=
  match l with
  | '-' :: rest => (parseUnsignedFloat rest).map (fun v => -v)
  | _ => parseUnsignedFloat l

/-- The sanitisation in `_parse_fte`:
`str(fte_cell).strip().replace("%", "")` then `re.sub(r"[^0-9.\-]", "", s)`. -/
def fteSanitize (l : List Char) : List Char :=
  ((pyStrip l).filter (fun c => c ≠ '%')).filter
    (fun c => c.isDigit || c = '.' || c = '-')

/-- The `val / 100.0 if val > 1 else val` percentage convention. -/
def pyPercentNormalize (v : ℚ) : ℚ := if 1 < v then v / 100 else v

/-- Body of `_parse_fte` after the `pd.isna` test, on the sanitised text. -/
def parseFteStr (l : List Char) : Except PyErr (Option ℚ) :=
  if l = [] then .ok none
  else
    match parsePyFloat l with
    | none => .error .valueError
    | some v => .ok (some (pyPercentNormalize v))

/-- `_parse_fte` (main.py lines 126-140): convert Workday FTE text
(e.g. `'50.%'`) into a decimal fraction; `NaN` (here `none`) when the cell is
missing or nothing survives sanitisation.  `float` on a non-empty residue
that is not a number raises `ValueError`. -/
def _parse_fte (cell : Option String) : Except PyErr (Option ℚ) :=
  match cell with
  | none => .ok none
  | some s => parseFteStr (fteSanitize s.data)

/-- Models `pandas.to_numeric(x, errors="coerce")` on one cell: a missing
cell or a non-numeric string becomes `NaN` (`none`); a numeric string
(optional sign, decimal digits, optional fraction) parses to its value.
This is an external pandas routine; the model covers plain decimal text. -/
def to_numeric (cell : Option String) : Option ℚ :=
  match cell with
  | none => none
  | some s =>
    match pyStrip s.data with
    | '+' :: rest => parseUnsignedFloat rest
    | '-' :: rest => (parseUnsignedFloat rest).map (fun v => -v)
    | l => parseUnsignedFloat l

/-- Distribution Percent column (main.py lines 222-223):
`pd.to_numeric(..., errors="coerce")` then `np.where(dist > 1, dist / 100, dist)`
(`NaN > 1` is false, so `NaN` stays `NaN`). -/
def parseDist (cell : Option String) : Option ℚ :=
  (to_numeric cell).map pyPercentNormalize

/-! ### Dates (`_format_mmddyyyy`, main.py lines 143-155, and the Output
Namer `CreateOutPutFileName`, lines 68-89) -/

/-- A calendar date as produced by `pandas.to_datetime`. -/
structure PyDate where
  month : Nat
  day : Nat
  year : Nat
deriving DecidableEq, Repr

/-- Models `pandas.to_datetime` on date text: an external pandas routine,
modelled here on ISO `YYYY-MM-DD` input (the format exercised by the
specification); anything else is a parse failure (`none` models both
`NaT` under `errors="coerce"` and the raised error under default settings,
which `CreateOutPutFileName` catches). -/
def pd_to_datetime (l : List Char) : Option PyDate :=
  match pyStrip l with
  | [y1, y2, y3, y4, '-', m1, m2, '-', d1, d2] =>
    if [y1, y2, y3, y4, m1, m2, d1, d2].all Char.isDigit then
      let m := digitsToNat [m1, m2]
      let d := digitsToNat [d1, d2]
      if 1 ≤ m && m ≤ 12 && 1 ≤ d && d ≤ 31 then
        some ⟨m, d, digitsToNat [y1, y2, y3, y4]⟩
      else none
    else none
  | _ => none

/-- Two-digit zero-padded decimal (strftime `%m` / `%d`). -/
def pad2 (n : Nat) : List Char :=
  if n < 10 then '0' :: Nat.toDigits 10 n else Nat.toDigits 10 n

/-- strftime `"%m/%d/%Y"`. -/
def fmtSlashDate (d : PyDate) : List Char :=
  pad2 d.month ++ '/' :: pad2 d.day ++ '/' :: Nat.toDigits 10 d.year

/-- strftime `"%m_%d_%Y"`. -/
def fmtUnderscoreDate (d : PyDate) : List Char :=
  pad2 d.month ++ '_' :: pad2 d.day ++ '_' :: Nat.toDigits 10 d.year

/-- `_format_mmddyyyy` (main.py lines 143-155): format a date cell as
`mm/dd/yyyy`; blank if missing, blank text, or unparseable. -/
def _format_mmddyyyy (cell : Option String) : List Char :=
  match cell with
  | none => []
  | some s =>
    if pyStrip s.data = [] then []
    else
      match pd_to_datetime s.data with
      | none => []
      | some d => fmtSlashDate d

/-- The `.replace("/", "_").replace("\\", "_").replace(":", "_")` fallback. -/
def sanitizeDateChar (c : Char) : Char :=
  if c = '/' || c = '\\' || c = ':' then '_' else c

/-- `CreateOutPutFileName` (main.py lines 68-89), restricted to the produced
file name (the surrounding `os.makedirs` and `os.path.join(OUTPUT_DIR, ...)`
are filesystem glue).  The Effective Date is trimmed; empty gives the token
`unknowndate`, a parseable date is formatted `%m_%d_%Y`, and on parse failure
every `/`, `\`, `:` in the trimmed text is replaced by `_`. -/
def CreateOutPutFileName (effectiveDate : String) : List Char :=
  let raw := pyStrip effectiveDate.data
  let formatted :=
    if raw = [] then "unknowndate".data
    else
      match pd_to_datetime raw with
      | some d => fmtUnderscoreDate d
      | none => raw.map sanitizeDateChar
  formatted ++ " Costing Allocations.xlsx".data

/-! ### The data table model

`pandas.read_excel` yields a `DataFrame`; the model is a `Table`: a flag per
modelled column saying whether that column exists in the source sheet, plus
the rows.  A duplicate `Cost Center` column is read by pandas as
`Cost Center.1`; per the script's naming, the first is the organization-level
column (`cc_org_col`) and the second the allocation-level one
(`cc_alloc_col`). -/

/-- One data row of the source table (§3 SourceRow): the cell of each
modelled column; `none` is a pandas `NaN`. -/
structure SourceRow where
  worker : Option String
  title : Option String
  fte : Option String
  startDate : Option String
  endDate : Option String
  distributionPercent : Option String
  costCenterOrg : Option String
  costCenterAlloc : Option String
  program : Option String
  grant : Option String
  gift : Option String
deriving DecidableEq, Repr

/-- Which columns the source sheet has. -/
structure Table where
  hasWorker : Bool
  hasTitle : Bool
  hasFTE : Bool
  hasStartDate : Bool
  hasEndDate : Bool
  hasDistributionPercent : Bool
  hasCCOrg : Bool
  hasCCAlloc : Bool
  hasProgram : Bool
  hasGrant : Bool
  hasGift : Bool
  rows : List SourceRow
deriving DecidableEq, Repr

/-- One output record (§3 OutputRow). -/
structure OutputRow where
  costCenter : List Char
  lastName : List Char
  firstName : List Char
  title : List Char
  fte : Option ℚ
  startDate : List Char
  endDate : List Char
  distributionPercent : Option ℚ
  budget : List Char
deriving DecidableEq, Repr

/-- `df.dropna(how="all")`: a row is dropped when every cell of every
present column is `NaN`. -/
def rowAllBlank (t : Table) (r : SourceRow) : Bool :=
  (!t.hasWorker || r.worker.isNone) &&
  (!t.hasTitle || r.title.isNone) &&
  (!t.hasFTE || r.fte.isNone) &&
  (!t.hasStartDate || r.startDate.isNone) &&
  (!t.hasEndDate || r.endDate.isNone) &&
  (!t.hasDistributionPercent || r.distributionPercent.isNone) &&
  (!t.hasCCOrg || r.costCenterOrg.isNone) &&
  (!t.hasCCAlloc || r.costCenterAlloc.isNone) &&
  (!t.hasProgram || r.program.isNone) &&
  (!t.hasGrant || r.grant.isNone) &&
  (!t.hasGift || r.gift.isNone)

/-- `missing = [c for c in required if c not in df.columns]` is non-empty. -/
def requiredMissing (t : Table) : Bool :=
  !(t.hasWorker && t.hasTitle && t.hasFTE &&
    t.hasStartDate && t.hasEndDate && t.hasDistributionPercent)

/-- `_pick_cost_center` (main.py lines 206-209): allocation-level extraction
(from the `Cost Center.1` column when it exists) preferred when non-empty,
organization-level extraction otherwise. -/
def _pick_cost_center (t : Table) (r : SourceRow) : List Char :=
  let alloc := if t.hasCCAlloc then _extract_cc_number r.costCenterAlloc else []
  let org := if t.hasCCOrg then _extract_cc_number r.costCenterOrg else []
  if alloc ≠ [] then alloc else org

/-- `_extract_budget_number` (main.py lines 158-171): first of
`Program`, `Grant`, `Gift` (existing columns only) whose trimmed value is
non-empty, reduced to its first whitespace token; else empty. -/
def _extract_budget_number (t : Table) (r : SourceRow) : List Char :=
  let p := if t.hasProgram then cellText r.program else []
  if p ≠ [] then (pySplitWs p).headD []
  else
    let g := if t.hasGrant then cellText r.grant else []
    if g ≠ [] then (pySplitWs g).headD []
    else
      let gi := if t.hasGift then cellText r.gift else []
      if gi ≠ [] then (pySplitWs gi).headD [] else []

/-- The per-row column derivations of `ReadInCostingAllocationsFile`
(main.py lines 211-225), combined into one output record. -/
def makeRow (t : Table) (r : SourceRow) : Except PyErr OutputRow :=
  match _split_worker_name r.worker with
  | .error e => .error e
  | .ok fl =>
    match _parse_fte r.fte with
    | .error e => .error e
    | .ok fteV =>
      .ok
        { costCenter := _pick_cost_center t r
          lastName := fl.2
          firstName := fl.1
          title := cellText r.title
          fte := fteV
          startDate := _format_mmddyyyy r.startDate
          endDate := _format_mmddyyyy r.endDate
          distributionPercent := parseDist r.distributionPercent
          budget := _extract_budget_number t r }

/-- The identifying-information filter (main.py lines 228-234): keep a row
unless Cost Center, First Name and Last Name are all empty. -/
def keepRow (r : OutputRow) : Bool :=
  !(decide (r.costCenter = []) && decide (r.firstName = []) &&
    decide (r.lastName = []))

/-! ### The sort order (main.py lines 251-256)

`out.sort_values(by=["Cost Center", "Last Name"], ascending=[True, True],
kind="mergesort")` sorts by the string pair, comparing Python strings by
code point. -/

/-- Python string `<`: lexicographic by code point. -/
def pyStrLt : List Char → List Char → Bool
  | [], [] => false
  | [], _ :: _ => true
  | _ :: _, [] => false
  | a :: as, b :: bs => decide (a < b) || (decide (a = b) && pyStrLt as bs)

/-- Python string `≤`. -/
def pyStrLe (x y : List Char) : Bool := pyStrLt x y || decide (x = y)

/-- Row comparison used by the stable sort: ascending by
(Cost Center, Last Name), as Python tuple comparison. -/
def rowLE (a b : OutputRow) : Bool :=
  pyStrLt a.costCenter b.costCenter ||
  (decide (a.costCenter = b.costCenter) && pyStrLe a.lastName b.lastName)

/-- `ReadInCostingAllocationsFile` (main.py lines 174-258): drop all-blank
rows, check required columns (`.ok none` models the `return None` after the
error dialog), check that some Cost Center column exists, derive the output
rows, filter, and stable-sort.  An `.error` models an uncaught exception
(pandas `apply` propagates one raised by a cell function). -/
def ReadInCostingAllocationsFile (t : Table) :
    Except PyErr (Option (List OutputRow)) :=
  let rows := t.rows.filter (fun r => !rowAllBlank t r)
  if requiredMissing t then .ok none
  else if !t.hasCCOrg && !t.hasCCAlloc then .ok none
  else
    match rows.mapM (makeRow t) with
    | .error e => .error e
    | .ok outs => .ok (some ((outs.filter keepRow).mergeSort rowLE))

/-! ### The driver (`main`, main.py lines 304-328)

The driver's observable behaviour is modelled as the sequence of external
actions it performs.  `Env` fixes the non-deterministic inputs: the file
selection, whether the computed output path already exists, and the data
table behind the selected file. -/

/-- External actions of one run, in order. -/
inductive Event where
  | readHeader
  | makeOutputDir
  | errorExists
  | readTable
  | errorColumns
  | crash
  | writeOutput
  | infoDone
deriving DecidableEq, Repr

/-- The environment of one run. -/
structure Env where
  selectedFile : Option String
  effectiveDate : String
  outputExists : Bool
  table : Table

/-- `main` (main.py lines 304-328) as the trace of external actions:
no selection returns silently; otherwise the header block is read and the
output name computed (`os.makedirs` runs inside `CreateOutPutFileName`);
an existing output path shows an error and returns; otherwise the data
table is read and transformed, a structural error (`None`) shows an error
and returns, an uncaught exception crashes the run, and only the success
path writes the output file. -/
def mainTrace (env : Env) : List Event :=
  match env.selectedFile with
  | none => []
  | some _ =>
    .readHeader :: .makeOutputDir ::
    if env.outputExists then [.errorExists]
    else
      .readTable ::
      match ReadInCostingAllocationsFile env.table with
      | .error _ => [.crash]
      | .ok none => [.errorColumns]
      | .ok (some _) => [.writeOutput, .infoDone]

/-! ### Concrete fixtures used to exercise the pipeline -/

/-- A sample source row. -/
def sampleRow : SourceRow :=
  { worker := some "Smith, John"
    title := some "Developer"
    fte := none
    startDate := none
    endDate := none
    distributionPercent := none
    costCenterOrg := some "Org CC1 x"
    costCenterAlloc := some "Alloc CC2 y"
    program := some "123 Research"
    grant := some "G99 fund"
    gift := none }

/-- A sample one-row table with every column present. -/
def sampleTable : Table :=
  { hasWorker := true, hasTitle := true, hasFTE := true, hasStartDate := true
    hasEndDate := true, hasDistributionPercent := true, hasCCOrg := true
    hasCCAlloc := true, hasProgram := true, hasGrant := true, hasGift := true
    rows := [sampleRow] }

/-- The output record the pipeline derives from `sampleRow`. -/
def sampleOut : OutputRow :=
  { costCenter := "CC2".data
    lastName := "Smith".data
    firstName := "John".data
    title := "Developer".data
    fte := none
    startDate := []
    endDate := []
    distributionPercent := none
    budget := "123".data }

/-- A sample run environment in which the output file already exists. -/
def sampleEnv : Env :=
  { selectedFile := some "export.xlsx"
    effectiveDate := "2024-01-05"
    outputExists := true
    table := sampleTable }

/-! ## Lemmas about the string utilities -/

theorem pyStrip_head_not_ws (l : List Char) (c : Char)
    (h : (pyStrip l).head? = some c) : pyWs c = false := by
  have hne : pyStrip l ≠ [] := by
    intro h0
    rw [h0] at h
    simp at h
  have hh := List.head?_dropWhile_not pyWs ((l.reverse.dropWhile pyWs).reverse)
  rw [show List.dropWhile pyWs ((l.reverse.dropWhile pyWs).reverse) = pyStrip l
    from rfl, h] at hh
  simpa using hh

theorem pySplitWsAux_ne_nil (l acc : List Char) (h : acc ≠ []) :
    pySplitWsAux l acc ≠ [] := by
  induction l generalizing acc with
  | nil => simp [pySplitWsAux, h]
  | cons c cs ih =>
    simp only [pySplitWsAux]
    by_cases hw : pyWs c
    · simp [hw, h]
    · simpa [hw] using ih (c :: acc) (by simp)

theorem pySplitWs_ne_nil (l : List Char) (c : Char) (cs : List Char)
    (hl : l = c :: cs) (hc : pyWs c = false) : pySplitWs l ≠ [] := by
  subst hl
  show pySplitWsAux (c :: cs) [] ≠ []
  simpa [pySplitWsAux, hc] using pySplitWsAux_ne_nil cs [c] (by simp)

theorem pySplitWs_pyStrip_ne_nil (l : List Char) (h : pyStrip l ≠ []) :
    pySplitWs (pyStrip l) ≠ [] := by
  obtain ⟨c, cs, hcs⟩ := List.exists_cons_of_ne_nil h
  refine pySplitWs_ne_nil _ c cs hcs ?_
  exact pyStrip_head_not_ws l c (by rw [hcs]; rfl)

theorem commaParts_mem (s p : List Char) (h : p ∈ commaParts s) :
    p ≠ [] ∧ ∃ q, p = pyStrip q := by
  unfold commaParts at h
  obtain ⟨hmem, hne⟩ := List.mem_filter.mp h
  obtain ⟨q, _, hq⟩ := List.mem_map.mp hmem
  exact ⟨by simpa using hne, q, hq.symm⟩

theorem pySplitWs_commaParts_ne_nil (s p : List Char) (h : p ∈ commaParts s) :
    pySplitWs p ≠ [] := by
  obtain ⟨hne, q, hq⟩ := commaParts_mem s p h
  subst hq
  exact pySplitWs_pyStrip_ne_nil q hne

theorem cellText_ne_nil_split (cell : Option String)
    (h : cellText cell ≠ []) : pySplitWs (cellText cell) ≠ [] := by
  match cell with
  | none => simp [cellText] at h
  | some s => exact pySplitWs_pyStrip_ne_nil s.data h

/-! ## The code's worker split agrees with the specification's rule -/

theorem split_worker_eq_spec (cell : Option String) :
    _split_worker_name cell = .ok (specWorkerSplit cell) := by
  unfold _split_worker_name specWorkerSplit
  by_cases hs : cellText cell = []
  · simp [hs, pySplitWs, pySplitWsAux]
  · simp only [hs, if_false, if_neg hs]
    by_cases hc : (cellText cell).contains ','
    · simp only [hc, if_true]
      rcases hp : commaParts (cellText cell) with _ | ⟨p1, _ | ⟨p2, rest⟩⟩
      · simp
      · simp
      · have hsplit : pySplitWs p2 ≠ [] := by
          refine pySplitWs_commaParts_ne_nil (cellText cell) p2 ?_
          rw [hp]; simp
        obtain ⟨tok, ts, hts⟩ := List.exists_cons_of_ne_nil hsplit
        simp [hts, List.getD]
    · simp only [hc, if_false]
      have htok : pySplitWs (cellText cell) ≠ [] := cellText_ne_nil_split cell hs
      rcases ht : pySplitWs (cellText cell) with _ | ⟨t, _ | ⟨u, ts⟩⟩
      · exact absurd ht htok
      · rfl
      · rfl

/-! ## The sort comparison is a total preorder -/

theorem char_toNat_inj {a b : Char} (h : a.toNat = b.toNat) : a = b := by
  apply Char.eq_of_val_eq
  apply UInt32.eq_of_toBitVec_eq
  exact BitVec.eq_of_toNat_eq h

theorem pyStrLt_trans : ∀ {x y z : List Char},
    pyStrLt x y = true → pyStrLt y z = true → pyStrLt x z = true
  | [], [], _, hxy, _ => by simp [pyStrLt] at hxy
  | [], _ :: _, [], _, hyz => by simp [pyStrLt] at hyz
  | [], _ :: _, _ :: _, _, _ => by simp [pyStrLt]
  | _ :: _, [], _, hxy, _ => by simp [pyStrLt] at hxy
  | _ :: _, _ :: _, [], _, hyz => by simp [pyStrLt] at hyz
  | a :: as, b :: bs, c :: cs, hxy, hyz => by
    simp only [pyStrLt, Bool.or_eq_true, Bool.and_eq_true, decide_eq_true_eq] at *
    rcases hxy with hab | ⟨hab, htail⟩ <;> rcases hyz with hbc | ⟨hbc, htail2⟩
    · exact Or.inl (lt_trans hab hbc)
    · exact Or.inl (hbc ▸ hab)
    · exact Or.inl (hab ▸ hbc)
    · exact Or.inr ⟨hab.trans hbc, pyStrLt_trans htail htail2⟩

theorem pyStrLt_trichotomy : ∀ (x y : List Char),
    pyStrLt x y = true ∨ x = y ∨ pyStrLt y x = true
  | [], [] => Or.inr (Or.inl rfl)
  | [], _ :: _ => Or.inl (by simp [pyStrLt])
  | _ :: _, [] => Or.inr (Or.inr (by simp [pyStrLt]))
  | a :: as, b :: bs => by
    rcases lt_trichotomy a b with hab | hab | hab
    · exact Or.inl (by simp [pyStrLt, hab])
    · subst hab
      rcases pyStrLt_trichotomy as bs with h | h | h
      · exact Or.inl (by simp [pyStrLt, h])
      · exact Or.inr (Or.inl (by rw [h]))
      · exact Or.inr (Or.inr (by simp [pyStrLt, h]))
    · exact Or.inr (Or.inr (by simp [pyStrLt, hab]))

theorem pyStrLt_irrefl : ∀ (x : List Char), pyStrLt x x = false
  | [] => rfl
  | a :: as => by simp [pyStrLt, pyStrLt_irrefl as]

theorem pyStrLt_asymm {x y : List Char} (h : pyStrLt x y = true) :
    pyStrLt y x = false := by
  by_contra hcon
  rw [Bool.not_eq_false] at hcon
  have := pyStrLt_trans h hcon
  rw [pyStrLt_irrefl] at this
  exact Bool.false_ne_true this

theorem rowLE_total (a b : OutputRow) : (rowLE a b || rowLE b a) = true := by
  unfold rowLE pyStrLe
  rcases pyStrLt_trichotomy a.costCenter b.costCenter with h | h | h
  · simp [h]
  · rcases pyStrLt_trichotomy a.lastName b.lastName with h2 | h2 | h2 <;>
      simp [h, h2]
  · simp [h]

theorem rowLE_trans (a b c : OutputRow) (hab : rowLE a b = true)
    (hbc : rowLE b c = true) : rowLE a c = true := by
  unfold rowLE pyStrLe at *
  simp only [Bool.or_eq_true, Bool.and_eq_true, decide_eq_true_eq] at *
  rcases hab with hab | ⟨hab, habl⟩ <;> rcases hbc with hbc | ⟨hbc, hbcl⟩
  · exact Or.inl (pyStrLt_trans hab hbc)
  · exact Or.inl (hbc ▸ hab)
  · exact Or.inl (hab ▸ hbc)
  · refine Or.inr ⟨hab.trans hbc, ?_⟩
    rcases habl with h1 | h1 <;> rcases hbcl with h2 | h2
    · exact Or.inl (pyStrLt_trans h1 h2)
    · exact Or.inl (h2 ▸ h1)
    · exact Or.inl (h1 ▸ h2)
    · exact Or.inr (h1.trans h2)

theorem rowLE_of_eq_keys (a b : OutputRow) (h1 : a.costCenter = b.costCenter)
    (h2 : a.lastName = b.lastName) : rowLE a b = true := by
  unfold rowLE pyStrLe
  simp [h1, h2]

/-! ## Soundness of the Cost Center search: every match is a word-bounded
`CC`+digits token -/

theorem ccMatchAt_sound (l m : List Char) (h : ccMatchAt l = some m) :
    ∃ q, l = m ++ q ∧ IsCcToken m ∧
      ∀ c, q.head? = some c → isWordChar c = false := by
  match l with
  | [] => simp [ccMatchAt] at h
  | [_] => simp [ccMatchAt] at h
  | c1 :: c2 :: rest =>
    simp only [ccMatchAt] at h
    by_cases hcc : isCcChar c1 && isCcChar c2
    · simp only [hcc, if_true] at h
      by_cases hds : rest.takeWhile Char.isDigit = []
      · simp [hds] at h
      · simp only [hds, if_false] at h
        have hsplit : rest.takeWhile Char.isDigit ++ rest.dropWhile Char.isDigit
            = rest := List.takeWhile_append_dropWhile Char.isDigit rest
        have hdig : ∀ c ∈ rest.takeWhile Char.isDigit, c.isDigit = true :=
          fun c hc => List.mem_takeWhile_imp hc
        rcases hrest : rest.dropWhile Char.isDigit with _ | ⟨c, cs⟩
        · rw [hrest] at h
          simp only [Option.some.injEq] at h
          have hrest2 : rest = rest.takeWhile Char.isDigit := by
            conv_lhs => rw [← hsplit]
            rw [hrest, List.append_nil]
          refine ⟨[], ?_, ?_, by simp⟩
          · rw [List.append_nil, ← h]
            exact congrArg (fun x => c1 :: c2 :: x) hrest2
          · exact ⟨c1, c2, _, h.symm, (Bool.and_eq_true .. ▸ hcc).1,
              (Bool.and_eq_true .. ▸ hcc).2, hds, hdig⟩
        · rw [hrest] at h
          by_cases hw : isWordChar c
          · simp [hw] at h
          · rw [Bool.not_eq_true] at hw
            simp only [hw, Bool.false_eq_true, if_false, Option.some.injEq] at h
            have hrest2 : rest = rest.takeWhile Char.isDigit ++ c :: cs := by
              conv_lhs => rw [← hsplit]
              rw [hrest]
            refine ⟨c :: cs, ?_, ?_, ?_⟩
            · rw [← h]
              simp only [List.cons_append]
              exact congrArg (fun x => c1 :: c2 :: x) hrest2
            · exact ⟨c1, c2, _, h.symm, (Bool.and_eq_true .. ▸ hcc).1,
                (Bool.and_eq_true .. ▸ hcc).2, hds, hdig⟩
            · intro c' hc'
              simp only [List.head?_cons, Option.some.injEq] at hc'
              rw [← hc']
              exact hw
    · simp [hcc] at h

theorem ccSearch_sound : ∀ (l : List Char) (prevW : Bool) (m : List Char),
    ccSearch prevW l = some m →
    ∃ p q, l = p ++ m ++ q ∧ IsCcToken m ∧
      (p = [] → prevW = false) ∧
      (∀ c, p.getLast? = some c → isWordChar c = false) ∧
      (∀ c, q.head? = some c → isWordChar c = false)
  | [], prevW, m => by intro h; simp [ccSearch] at h
  | c :: cs, prevW, m => by
    intro h
    simp only [ccSearch] at h
    rcases hfirst : (if prevW then none else ccMatchAt (c :: cs)) with _ | m0
    · rw [hfirst] at h
      obtain ⟨p', q, hcs, htok, hpw, hlast, hhead⟩ :=
        ccSearch_sound cs (isWordChar c) m h
      refine ⟨c :: p', q,
        by rw [show (c :: p') ++ m ++ q = c :: (p' ++ m ++ q) by simp, ← hcs],
        htok, ?_, ?_, hhead⟩
      · intro hcontra
        exact absurd hcontra (List.cons_ne_nil c p')
      · intro c' hc'
        rcases hp' : p' with _ | ⟨x, xs⟩
        · rw [hp'] at hc'
          simp only [List.getLast?_singleton, Option.some.injEq] at hc'
          rw [← hc']
          by_cases hw : isWordChar c
          · exact absurd (hpw (by rw [hp'])) (by simp [hw])
          · simpa using hw
        · rw [hp', List.getLast?_cons_cons] at hc'
          exact hlast c' (by rw [hp']; simpa [List.getLast?_cons_cons] using hc')
    · rw [hfirst] at h
      simp only [Option.some.injEq] at h
      subst h
      have hprev : prevW = false := by
        by_contra hcon
        rw [Bool.not_eq_false] at hcon
        simp [hcon] at hfirst
      rw [hprev, if_neg (by simp)] at hfirst
      obtain ⟨q, hq, htok, hhead⟩ := ccMatchAt_sound _ _ hfirst
      exact ⟨[], q, by simpa using hq, htok, fun _ => hprev, by simp, hhead⟩

/-! ## Pipeline inversion -/

theorem makeRow_ok (t : Table) (r : SourceRow) (o : OutputRow)
    (h : makeRow t r = .ok o) :
    o.costCenter = _pick_cost_center t r ∧
    o.firstName = (specWorkerSplit r.worker).1 ∧
    o.lastName = (specWorkerSplit r.worker).2 := by
  unfold makeRow at h
  rw [split_worker_eq_spec r.worker] at h
  rcases hf : _parse_fte r.fte with e | v <;> rw [hf] at h
  · exact absurd h (by simp)
  · simp only [Except.ok.injEq] at h
    rw [← h]
    exact ⟨rfl, rfl, rfl⟩

theorem readIn_ok_some (t : Table) (out : List OutputRow)
    (h : ReadInCostingAllocationsFile t = .ok (some out)) :
    ∃ outs, (t.rows.filter (fun r => !rowAllBlank t r)).mapM (makeRow t)
        = .ok outs ∧
      out = (outs.filter keepRow).mergeSort rowLE := by
  unfold ReadInCostingAllocationsFile at h
  by_cases h1 : requiredMissing t
  · simp [h1] at h
  · rw [if_neg (by simp [h1])] at h
    by_cases h2 : !t.hasCCOrg && !t.hasCCAlloc
    · simp [h2] at h
    · rw [if_neg (by simp only [h2]; exact Bool.false_ne_true)] at h
      rcases hm : (t.rows.filter (fun r => !rowAllBlank t r)).mapM (makeRow t)
        with e | outs <;> rw [hm] at h
      · exact absurd h (by simp)
      · simp only [Except.ok.injEq, Option.some.injEq] at h
        exact ⟨outs, rfl, h.symm⟩

theorem pyPercentNormalize_pos (v : ℚ) (h : 1 < v) :
    pyPercentNormalize v = v / 100 := if_pos h

theorem pyPercentNormalize_le (v : ℚ) (h : ¬ 1 < v) :
    pyPercentNormalize v = v := if_neg h

theorem keepRow_iff (r : OutputRow) :
    keepRow r = true ↔
      (r.costCenter ≠ [] ∨ r.firstName ≠ [] ∨ r.lastName ≠ []) := by
  unfold keepRow
  by_cases h1 : r.costCenter = [] <;> by_cases h2 : r.firstName = [] <;>
    by_cases h3 : r.lastName = [] <;> simp [h1, h2, h3]

/-! ## The claims -/

/-- C1: the claim states that the per-cell FTE/Distribution parse returns a
blank marker for every possible string input and never raises.  The code
violates this: for an FTE cell whose text is `"."`, the sanitised residue
`"."` is non-empty, so `_parse_fte` calls `float(".")`, which raises
`ValueError`; `pandas.apply` propagates it and the run aborts with an
uncaught exception instead of degrading the cell to blank.  (The
Distribution Percent side uses `errors="coerce"` and cannot raise.) -/
theorem C1_parse_fte_raises_on_dot :
    _parse_fte (some ".") = .error .valueError ∧
    _parse_fte (some "-") = .error .valueError ∧
    parseDist (some ".") = none :=
  ⟨rfl, rfl, rfl⟩

/-- C2: for every row of a table with both Cost Center columns, the derived
CostCenter is the upper-cased case-insensitive `CC`+digits extraction from
the allocation-level cell when non-empty, else the extraction from the
organization-level cell (empty when both extractions are empty); a cell
containing `... CC0075 ...` extracts `CC0075`, a lower-case `cc0075` is
upper-cased, and a cell with no match extracts the empty string. -/
theorem C2_cost_center_precedence :
    (∀ (t : Table) (r : SourceRow) (o : OutputRow),
      t.hasCCAlloc = true → t.hasCCOrg = true → makeRow t r = .ok o →
      o.costCenter =
        if _extract_cc_number r.costCenterAlloc ≠ []
        then _extract_cc_number r.costCenterAlloc
        else _extract_cc_number r.costCenterOrg) ∧
    _extract_cc_number (some "Operations CC0075 East") = "CC0075".data ∧
    _extract_cc_number (some "cc0075") = "CC0075".data ∧
    _extract_cc_number (some "no match here") = [] := by
  refine ⟨?_, rfl, rfl, rfl⟩
  intro t r o hA hO h
  have hcc := (makeRow_ok t r o h).1
  rw [hcc]
  unfold _pick_cost_center
  rw [hA, hO]
  simp

/-- C2 witness: the precedence equation evaluated on the sample row, whose
allocation-level cell `Alloc CC2 y` wins over the organization-level
`Org CC1 x`. -/
theorem C2_cost_center_precedence_witness :
    sampleOut.costCenter =
      if _extract_cc_number sampleRow.costCenterAlloc ≠ []
      then _extract_cc_number sampleRow.costCenterAlloc
      else _extract_cc_number sampleRow.costCenterOrg :=
  C2_cost_center_precedence.1 sampleTable sampleRow sampleOut rfl rfl rfl

/-- C3: `_split_worker_name` realises exactly the §4.3 worker-name rule
(`specWorkerSplit`, transcribed from the specification): comma form takes
trimmed non-empty comma parts (part 0 the last name, first whitespace token
of part 1 the first name, empty without a part 1); comma-free form splits on
whitespace with zero tokens giving both names empty, one token the first
name, two or more giving (first token, last token); an empty or missing cell
gives both names empty.  The spec's four examples are also checked. -/
theorem C3_worker_name_rule :
    (∀ cell, _split_worker_name cell = .ok (specWorkerSplit cell)) ∧
    _split_worker_name (some "Smith, John Allen")
      = .ok ("John".data, "Smith".data) ∧
    _split_worker_name (some "John Allen Smith")
      = .ok ("John".data, "Smith".data) ∧
    _split_worker_name (some "Smith") = .ok ("Smith".data, []) ∧
    _split_worker_name (some "") = .ok ([], []) ∧
    _split_worker_name none = .ok ([], []) :=
  ⟨split_worker_eq_spec, rfl, rfl, rfl, rfl, rfl⟩

/-- C4: every successfully parsed FTE or Distribution Percent value `v` is
stored as `v / 100` when `v > 1` and as exactly `v` otherwise — a value of
exactly 1 is not divided, and out-of-range results are not clamped
(`"250"` stays `2.5`, `"-5"` stays `-5`). -/
theorem C4_percent_threshold :
    (∀ (s : String) (v : ℚ), parsePyFloat (fteSanitize s.data) = some v →
      _parse_fte (some s) = .ok (some (if 1 < v then v / 100 else v))) ∧
    (∀ (s : String) (v : ℚ), to_numeric (some s) = some v →
      parseDist (some s) = some (if 1 < v then v / 100 else v)) ∧
    _parse_fte (some "50.%") = .ok (some (1/2 : ℚ)) ∧
    _parse_fte (some "0.75") = .ok (some (3/4 : ℚ)) ∧
    _parse_fte (some "100") = .ok (some (1 : ℚ)) ∧
    _parse_fte (some "1") = .ok (some (1 : ℚ)) ∧
    _parse_fte (some "250") = .ok (some (5/2 : ℚ)) ∧
    _parse_fte (some "-5") = .ok (some (-5 : ℚ)) ∧
    parseDist (some "150") = some (3/2 : ℚ) := by
  refine ⟨?_, ?_, ?_, ?_, ?_, ?_, ?_, ?_, ?_⟩
  · intro s v h
    have hne : fteSanitize s.data ≠ [] := by
      intro h0
      rw [h0] at h
      exact Option.noConfusion h
    show parseFteStr (fteSanitize s.data) = _
    unfold parseFteStr
    rw [if_neg hne, h]
    rfl
  · intro s v h
    unfold parseDist
    rw [h]
    rfl
  · have h1 : _parse_fte (some "50.%") = parseFteStr ['5', '0', '.'] := rfl
    have h2 : parsePyFloat ['5', '0', '.'] = some (ratOfParts ['5', '0'] []) := rfl
    have h3 : ratOfParts ['5', '0'] [] = 50 := by
      have e1 : digitsToNat ['5', '0'] = 50 := rfl
      have e2 : digitsToNat ([] : List Char) = 0 := rfl
      simp [ratOfParts, e1, e2]
    rw [h1]
    unfold parseFteStr
    rw [if_neg (by decide), h2, h3]
    show Except.ok (some (pyPercentNormalize 50)) = _
    rw [pyPercentNormalize_pos 50 (by norm_num)]
    norm_num
  · have h1 : _parse_fte (some "0.75") = parseFteStr ['0', '.', '7', '5'] := rfl
    have h2 : parsePyFloat ['0', '.', '7', '5']
        = some (ratOfParts ['0'] ['7', '5']) := rfl
    have h3 : ratOfParts ['0'] ['7', '5'] = 3/4 := by
      have e1 : digitsToNat ['0'] = 0 := rfl
      have e2 : digitsToNat ['7', '5'] = 75 := rfl
      simp only [ratOfParts, e1, e2, List.length_cons, List.length_nil]
      norm_num
    rw [h1]
    unfold parseFteStr
    rw [if_neg (by decide), h2, h3]
    show Except.ok (some (pyPercentNormalize (3/4))) = _
    rw [pyPercentNormalize_le (3/4) (by norm_num)]
  · have h1 : _parse_fte (some "100") = parseFteStr ['1', '0', '0'] := rfl
    have h2 : parsePyFloat ['1', '0', '0'] = some ((100 : ℕ) : ℚ) := rfl
    rw [h1]
    unfold parseFteStr
    rw [if_neg (by decide), h2]
    show Except.ok (some (pyPercentNormalize ((100 : ℕ) : ℚ))) = _
    rw [pyPercentNormalize_pos _ (by norm_num)]
    norm_num
  · have h1 : _parse_fte (some "1") = parseFteStr ['1'] := rfl
    have h2 : parsePyFloat ['1'] = some ((1 : ℕ) : ℚ) := rfl
    rw [h1]
    unfold parseFteStr
    rw [if_neg (by decide), h2]
    show Except.ok (some (pyPercentNormalize ((1 : ℕ) : ℚ))) = _
    rw [pyPercentNormalize_le _ (by norm_num)]
    norm_num
  · have h1 : _parse_fte (some "250") = parseFteStr ['2', '5', '0'] := rfl
    have h2 : parsePyFloat ['2', '5', '0'] = some ((250 : ℕ) : ℚ) := rfl
    rw [h1]
    unfold parseFteStr
    rw [if_neg (by decide), h2]
    show Except.ok (some (pyPercentNormalize ((250 : ℕ) : ℚ))) = _
    rw [pyPercentNormalize_pos _ (by norm_num)]
    norm_num
  · have h1 : _parse_fte (some "-5") = parseFteStr ['-', '5'] := rfl
    have h2 : parsePyFloat ['-', '5'] = some (-((5 : ℕ) : ℚ)) := rfl
    rw [h1]
    unfold parseFteStr
    rw [if_neg (by decide), h2]
    show Except.ok (some (pyPercentNormalize (-((5 : ℕ) : ℚ)))) = _
    rw [pyPercentNormalize_le _ (by norm_num)]
    norm_num
  · have h : to_numeric (some "150") = some ((150 : ℕ) : ℚ) := rfl
    unfold parseDist
    rw [h]
    show some (pyPercentNormalize ((150 : ℕ) : ℚ)) = _
    rw [pyPercentNormalize_pos _ (by norm_num)]
    norm_num

/-- C4 witness: the FTE threshold equation applied at the concrete input
`"250"`, whose parsed value is 250. -/
theorem C4_percent_threshold_witness :
    parsePyFloat (fteSanitize "250".data) = some ((250 : ℕ) : ℚ) ∧
    _parse_fte (some "250") =
      .ok (some (if 1 < ((250 : ℕ) : ℚ) then ((250 : ℕ) : ℚ) / 100
                 else ((250 : ℕ) : ℚ))) :=
  ⟨rfl, C4_percent_threshold.1 "250" ((250 : ℕ) : ℚ) rfl⟩

/-- C5: every row of the written output has at least one of CostCenter,
FirstName, LastName non-empty (a row with all three empty is excluded), and
every derived row with any one of the three non-empty is retained in the
output. -/
theorem C5_row_filter (t : Table) (out : List OutputRow)
    (h : ReadInCostingAllocationsFile t = .ok (some out)) :
    (∀ r ∈ out, r.costCenter ≠ [] ∨ r.firstName ≠ [] ∨ r.lastName ≠ []) ∧
    (∀ outs,
      (t.rows.filter (fun r => !rowAllBlank t r)).mapM (makeRow t) = .ok outs →
      ∀ r ∈ outs,
        (r.costCenter ≠ [] ∨ r.firstName ≠ [] ∨ r.lastName ≠ []) →
        r ∈ out) := by
  obtain ⟨outs0, hm, hout⟩ := readIn_ok_some t out h
  constructor
  · intro r hr
    rw [hout] at hr
    exact (keepRow_iff r).mp (List.of_mem_filter (List.mem_mergeSort.mp hr))
  · intro outs hm2 r hr hid
    rw [hm] at hm2
    injection hm2 with he
    subst he
    rw [hout]
    exact List.mem_mergeSort.mpr
      (List.mem_filter.mpr ⟨hr, (keepRow_iff r).mpr hid⟩)

/-- C5 witness: the filter guarantee applied to the sample one-row table. -/
theorem C5_row_filter_witness :
    sampleOut.costCenter ≠ [] ∨ sampleOut.firstName ≠ [] ∨
      sampleOut.lastName ≠ [] :=
  (C5_row_filter sampleTable [sampleOut]
    (by rw [show ReadInCostingAllocationsFile sampleTable
          = Except.ok (some ([sampleOut].mergeSort rowLE)) from rfl,
        List.mergeSort_singleton])).1
    sampleOut (by simp)

/-- C6: the output rows are totally ordered by (CostCenter ascending,
LastName ascending) — pairwise `rowLE` — and the sort is stable: two rows
with equal (CostCenter, LastName) keys that appear in a given relative order
in the pre-sort filtered list appear in the same relative order in the
output. -/
theorem C6_stable_sort (t : Table) (out outs : List OutputRow)
    (h : ReadInCostingAllocationsFile t = .ok (some out))
    (hm : (t.rows.filter (fun r => !rowAllBlank t r)).mapM (makeRow t)
      = .ok outs) :
    out.Pairwise (fun a b => rowLE a b = true) ∧
    (∀ a b : OutputRow, a.costCenter = b.costCenter →
      a.lastName = b.lastName →
      [a, b].Sublist (outs.filter keepRow) → [a, b].Sublist out) := by
  obtain ⟨outs0, hm0, hout⟩ := readIn_ok_some t out h
  rw [hm0] at hm
  injection hm with he
  subst he
  constructor
  · rw [hout]
    exact List.sorted_mergeSort rowLE_trans rowLE_total _
  · intro a b h1 h2 hsub
    rw [hout]
    exact List.pair_sublist_mergeSort rowLE_trans rowLE_total
      (rowLE_of_eq_keys a b h1 h2) hsub

/-- C6 witness: the sortedness part evaluated on the sample one-row table. -/
theorem C6_stable_sort_witness :
    List.Pairwise (fun a b => rowLE a b = true) [sampleOut] :=
  (C6_stable_sort sampleTable [sampleOut] [sampleOut]
    (by rw [show ReadInCostingAllocationsFile sampleTable
          = Except.ok (some ([sampleOut].mergeSort rowLE)) from rfl,
        List.mergeSort_singleton])
    rfl).1

/-- C7: the output-name token is `unknowndate` when the trimmed Effective
Date is empty, the date formatted `MM_DD_YYYY` when it parses, and otherwise
the trimmed text with every `/`, `\`, `:` replaced by `_`; the file name is
the token followed by `" Costing Allocations.xlsx"`.  The spec's three
examples are checked. -/
theorem C7_output_file_name :
    (∀ ed : String, pyStrip ed.data = [] →
      CreateOutPutFileName ed = "unknowndate Costing Allocations.xlsx".data) ∧
    (∀ (ed : String) (d : PyDate), pyStrip ed.data ≠ [] →
      pd_to_datetime (pyStrip ed.data) = some d →
      CreateOutPutFileName ed
        = fmtUnderscoreDate d ++ " Costing Allocations.xlsx".data) ∧
    (∀ ed : String, pyStrip ed.data ≠ [] →
      pd_to_datetime (pyStrip ed.data) = none →
      CreateOutPutFileName ed
        = (pyStrip ed.data).map sanitizeDateChar
          ++ " Costing Allocations.xlsx".data) ∧
    CreateOutPutFileName "2024-01-05"
      = "01_05_2024 Costing Allocations.xlsx".data ∧
    CreateOutPutFileName "" = "unknowndate Costing Allocations.xlsx".data ∧
    CreateOutPutFileName "Q1/Q2" = "Q1_Q2 Costing Allocations.xlsx".data := by
  refine ⟨?_, ?_, ?_, rfl, rfl, rfl⟩
  · intro ed h
    simp only [CreateOutPutFileName, h, if_pos]
    rfl
  · intro ed d h1 h2
    simp only [CreateOutPutFileName, h2, if_neg h1]
  · intro ed h1 h2
    simp only [CreateOutPutFileName, h2, if_neg h1]

/-- C7 witness: the parse-success branch applied at `"2024-01-05"`. -/
theorem C7_output_file_name_witness :
    CreateOutPutFileName "2024-01-05"
      = fmtUnderscoreDate ⟨1, 5, 2024⟩ ++ " Costing Allocations.xlsx".data :=
  C7_output_file_name.2.1 "2024-01-05" ⟨1, 5, 2024⟩ (by decide) rfl

/-- C8: when the computed output path already exists, the run performs
exactly header read, output-directory creation, and the error dialog — in
particular the data table is never read although the header was — and in
each abort branch (no selection, output exists, structural column error) the
output file is never written. -/
theorem C8_abort_order :
    (∀ (env : Env) (f : String), env.selectedFile = some f →
      env.outputExists = true →
      mainTrace env = [.readHeader, .makeOutputDir, .errorExists] ∧
      Event.readHeader ∈ mainTrace env ∧
      Event.readTable ∉ mainTrace env ∧
      Event.writeOutput ∉ mainTrace env) ∧
    (∀ env : Env,
      (env.selectedFile = none ∨ env.outputExists = true ∨
        ReadInCostingAllocationsFile env.table = .ok none) →
      Event.writeOutput ∉ mainTrace env) := by
  constructor
  · intro env f hsel hex
    have htr : mainTrace env = [.readHeader, .makeOutputDir, .errorExists] := by
      unfold mainTrace
      rw [hsel, hex]
      rfl
    rw [htr]
    exact ⟨rfl, by decide, by decide, by decide⟩
  · intro env hdis
    unfold mainTrace
    rcases hsel : env.selectedFile with _ | f
    · simp
    · rcases hdis with h | h | h
      · rw [hsel] at h
        exact absurd h (by simp)
      · rw [h]
        simp
      · by_cases hex : env.outputExists
        · rw [hex]
          simp
        · rw [Bool.not_eq_true] at hex
          rw [hex, h]
          simp

/-- C8 witness: the abort shape evaluated on a sample environment whose
output file already exists. -/
theorem C8_abort_order_witness :
    mainTrace sampleEnv = [.readHeader, .makeOutputDir, .errorExists] :=
  (C8_abort_order.1 sampleEnv "export.xlsx" rfl rfl).1

/-- C9: the worker-name splitter never raises for any cell (every unguarded
Python index is provably in range); a comma-containing input whose segments
are all empty or whitespace yields both names empty; an input with exactly
one non-empty trimmed segment (e.g. `", John"`, whose first comma segment is
empty) yields that segment as LastName with FirstName empty. -/
theorem C9_worker_split_safety :
    (∀ cell, ∃ pr, _split_worker_name cell = .ok pr) ∧
    (∀ s : String, (cellText (some s)).contains ',' = true →
      commaParts (cellText (some s)) = [] →
      _split_worker_name (some s) = .ok ([], [])) ∧
    (∀ (s : String) (p : List Char),
      (cellText (some s)).contains ',' = true →
      commaParts (cellText (some s)) = [p] →
      _split_worker_name (some s) = .ok ([], p)) ∧
    _split_worker_name (some ",") = .ok ([], []) ∧
    _split_worker_name (some ", John") = .ok ([], "John".data) := by
  refine ⟨?_, ?_, ?_, rfl, rfl⟩
  · intro cell
    exact ⟨specWorkerSplit cell, split_worker_eq_spec cell⟩
  · intro s hc hp
    rw [split_worker_eq_spec]
    simp only [specWorkerSplit]
    rw [hc, if_pos rfl, hp]
  · intro s p hc hp
    rw [split_worker_eq_spec]
    simp only [specWorkerSplit]
    rw [hc, if_pos rfl, hp]

/-- C9 witness: the single-segment clause applied at `", John"`. -/
theorem C9_worker_split_safety_witness :
    _split_worker_name (some ", John") = .ok ([], "John".data) :=
  C9_worker_split_safety.2.2.1 ", John" "John".data rfl rfl

/-- C10: whenever the Cost Center extractor returns a non-empty result, the
match is a `CC`+digits token standing as a whole word in the trimmed cell
text (the character before it, if any, is a non-word character, and so is
the character after it); a pattern embedded in a longer word, as in
`XCC123` or `CC123X`, is never matched. -/
theorem C10_cc_word_boundary :
    (∀ s : String, _extract_cc_number (some s) ≠ [] →
      ∃ p m q, pyStrip s.data = p ++ m ++ q ∧ IsCcToken m ∧
        _extract_cc_number (some s) = m.map Char.toUpper ∧
        (∀ c, p.getLast? = some c → isWordChar c = false) ∧
        (∀ c, q.head? = some c → isWordChar c = false)) ∧
    _extract_cc_number (some "XCC123") = [] ∧
    _extract_cc_number (some "CC123X") = [] := by
  refine ⟨?_, rfl, rfl⟩
  intro s hne
  have hcell : cellText (some s) = pyStrip s.data := rfl
  unfold _extract_cc_number at hne ⊢
  rcases hcc : ccSearch false (cellText (some s)) with _ | m0
  · rw [hcc] at hne
    simp at hne
  · obtain ⟨p, q, hsplit, htok, _, hlast, hhead⟩ :=
      ccSearch_sound _ false m0 hcc
    refine ⟨p, m0, q, by rw [← hcell]; exact hsplit, htok, ?_, hlast, hhead⟩
    rfl

/-- C10 witness: the word-boundary decomposition produced for the concrete
cell `"ops CC12, x"`, whose extraction is non-empty. -/
theorem C10_cc_word_boundary_witness :
    ∃ p m q, pyStrip "ops CC12, x".data = p ++ m ++ q ∧ IsCcToken m ∧
      _extract_cc_number (some "ops CC12, x") = m.map Char.toUpper ∧
      (∀ c, p.getLast? = some c → isWordChar c = false) ∧
      (∀ c, q.head? = some c → isWordChar c = false) :=
  C10_cc_word_boundary.1 "ops CC12, x" (by decide)
